import Mathlib

/-!
Verification of the dingg chat web application.

The frontend conversation component (`ChatLayout.tsx`) is embedded as pure
Lean functions over an explicit application state: the chat list, the
selected conversation id, the composer text and the typing flag.  String
builtins of the JavaScript runtime (`trim`, `toLowerCase`, `includes`) are
modelled as executable functions on the underlying character list.  The
backend described by the repository's README (message pipeline, session
registry, read receipts, cursor pagination, presence tracking) has no
implementation in the repository; those parts are modelled from the
specification text, each such definition marked in its doc comment.
-/

deriving instance DecidableEq for Except

namespace Dingg

/-! ## JavaScript string builtins, modelled on the character list -/

/-- Model of `String.prototype.trim`: drop leading and trailing whitespace. -/
def trimChars (s : List Char) : List Char :=
  ((s.dropWhile Char.isWhitespace).reverse.dropWhile Char.isWhitespace).reverse

/-- Model of `String.prototype.trim` on `String`. -/
def jsTrim (s : String) : String := ⟨trimChars s.data⟩

/-- Model of `String.prototype.toLowerCase`. -/
def jsToLower (s : String) : String := ⟨s.data.map Char.toLower⟩

/-- Does `hay` start with `needle`? -/
def listStartsWith : List Char → List Char → Bool
  | [], _ => true
  | _ :: _, [] => false
  | n :: ns, h :: hs => n == h && listStartsWith ns hs

/-- Model of `String.prototype.includes`: does `hay` contain `needle`
as a contiguous substring? -/
def listContainsSub (needle : List Char) : List Char → Bool
  | [] => needle.isEmpty
  | h :: hs => listStartsWith needle (h :: hs) || listContainsSub needle hs

/-! ## Frontend data model (`ChatLayout.tsx`) -/

/-- The `Sender` type of `ChatLayout.tsx`: `"me" | "them"`. -/
inductive Sender where
  | me
  | them
deriving DecidableEq, Repr

/-- The delivery status of an own message: `"sent" | "delivered" | "seen"`. -/
inductive MsgStatus where
  | sent
  | delivered
  | seen
deriving DecidableEq, Repr

/-- The `Message` interface of `ChatLayout.tsx`.  The ISO timestamp string
`at` is abstracted to a numeric instant `at'`. -/
structure Message where
  id : String
  sender : Sender
  text : String
  at' : Nat
  status : Option MsgStatus
deriving DecidableEq, Repr

/-- The `Chat` interface of `ChatLayout.tsx`. -/
structure Chat where
  id : Nat
  name : String
  avatar : Option String
  online : Option Bool
  pinned : Option Bool
  unread : Option Nat
  messages : List Message
deriving DecidableEq, Repr

/-- The component state of `ChatLayout`: `chats`, `selectedId`,
`newMessage` and `isTyping`. -/
structure AppState where
  chats : List Chat
  selectedId : Nat
  newMessage : String
  typing : Bool
deriving DecidableEq, Repr

/-! ## Frontend operations -/

/-- The `useEffect` of `ChatLayout.tsx` that clears the unread counter when
a chat is opened: `prev.map (c => c.id === selectedId ? \x7b...c, unread: 0\x7d : c)`. -/
def clearUnread (selectedId : Nat) (chats : List Chat) : List Chat :=
  chats.map fun c => if c.id = selectedId then { c with unread := some 0 } else c

/-- The `handleSend` handler of `ChatLayout.tsx`.  The freshly generated
message id (`crypto.randomUUID()`) and the current instant (`new Date()`)
enter as parameters `newId` and `now`. -/
def handleSend (newId : String) (now : Nat) (s : AppState) : AppState :=
  let text := jsTrim s.newMessage
  if text = "" then s
  else
    let msg : Message := { id := newId, sender := .me, text := text, at' := now, status := some .sent }
    { s with
      chats := s.chats.map fun c =>
        if c.id = s.selectedId then { c with messages := c.messages ++ [msg] } else c
      newMessage := ""
      typing := false }

/-- One composer interaction: the user types `text` into the composer and
presses send; `newId` and `now` are the runtime-provided id and instant. -/
structure SendInput where
  newId : String
  now : Nat
  text : String
deriving DecidableEq, Repr

/-- Typing `inp.text` into the composer and invoking `handleSend`. -/
def sendOne (s : AppState) (inp : SendInput) : AppState :=
  handleSend inp.newId inp.now { s with newMessage := inp.text }

/-- A sequence of composer interactions, performed in order. -/
def sendMany (s : AppState) (l : List SendInput) : AppState :=
  l.foldl sendOne s

/-- The message that `handleSend` constructs for a composer interaction. -/
def mkSentMessage (inp : SendInput) : Message :=
  { id := inp.newId, sender := .me, text := jsTrim inp.text, at' := inp.now, status := some .sent }

/-- The message list of the chat with the given id, as resolved by
`chats.find(c => c.id === selectedId)` in `ChatLayout.tsx`. -/
def getMessages (chats : List Chat) (cid : Nat) : List Message :=
  match chats.find? (fun c => c.id == cid) with
  | some c => c.messages
  | none => []

/-! ## Sidebar filter (`filtered` in `ChatLayout.tsx`) -/

/-- The truthiness of `c.pinned` (an absent flag is falsy). -/
def isPinned (c : Chat) : Bool :=
  c.pinned.getD false

/-- The pinned flag as used by the sort comparator: `c.pinned ? 1 : 0`. -/
def pinnedVal (c : Chat) : Nat :=
  if isPinned c then 1 else 0

/-- The JavaScript comparator `(a, b) => (b.pinned ? 1 : 0) - (a.pinned ? 1 : 0)`. -/
def chatCmp (a b : Chat) : Int :=
  (pinnedVal b : Int) - (pinnedVal a : Int)

/-- The stable sort performed by `chats.slice().sort(chatCmp)`.  ECMAScript
specifies `Array.prototype.sort` to be stable and to order the result by the
comparator; a stable merge sort with `a ≤ b ↔ chatCmp a b ≤ 0` realises
exactly that result. -/
def sortChats (chats : List Chat) : List Chat :=
  chats.mergeSort fun a b => decide (chatCmp a b ≤ 0)

/-- The filter predicate `c.name.toLowerCase().includes(query.toLowerCase())`. -/
def matchesQuery (query : String) (c : Chat) : Bool :=
  listContainsSub (jsToLower query).data (jsToLower c.name).data

/-- The `filtered` memo of `ChatLayout.tsx`: sort pinned chats first
(stably), then keep the chats whose name contains the query
case-insensitively. -/
def filtered (chats : List Chat) (query : String) : List Chat :=
  (sortChats chats).filter (matchesQuery query)

/-! ## Day grouping (`groups` in `ChatLayout.tsx`) -/

/-- One rendered group: a day label and its messages. -/
structure DayGroup where
  day : String
  items : List Message
deriving DecidableEq, Repr

/-- One iteration of the `for (const m of selectedChat.messages)` loop of
the `groups` memo: start a new group when the day label changes (the label
of the current last group is recomputed from its first item, exactly as the
source does), otherwise push onto the last group.  The day-label function
`dl` abstracts `dayLabel` (whose output depends on the render date). -/
def groupsStep (dl : Nat → String) (out : List DayGroup) (m : Message) : List DayGroup :=
  let lbl := dl m.at'
  match out.getLast? with
  | none => out ++ [⟨lbl, [m]⟩]
  | some last =>
    if dl ((last.items.headD m).at') ≠ lbl then out ++ [⟨lbl, [m]⟩]
    else out.dropLast ++ [⟨last.day, last.items ++ [m]⟩]

/-- The `groups` memo of `ChatLayout.tsx`. -/
def dayGroups (dl : Nat → String) (msgs : List Message) : List DayGroup :=
  msgs.foldl (groupsStep dl) []

/-- Concatenation of the items of a group list, in group order. -/
def groupItems (gs : List DayGroup) : List Message :=
  gs.foldr (fun g acc => g.items ++ acc) []

/-! ## Backend model

The repository contains no backend implementation; the README describes a
realtime conversation service (message pipeline, session registry, read
receipts, cursor pagination, presence).  The definitions below are modelled
from that specification text. -/

/-- Modelled from the spec: the error taxonomy of section 7 (`Forbidden`,
`InvalidArgument`, `NotFound`, `Timeout`, `Unavailable`). -/
inductive Err where
  | forbidden
  | invalidArgument
  | notFound
  | timeout
  | unavailable
deriving DecidableEq, Repr

/-- Modelled from the spec: a persisted message with a server-assigned
monotonically increasing identifier and timestamp. -/
structure BMessage where
  id : Nat
  convId : Nat
  senderId : Nat
  body : String
  ts : Nat
deriving DecidableEq, Repr

/-- Modelled from the spec: receipt status, transitioning delivered → read
only. -/
inductive RStatus where
  | delivered
  | read
deriving DecidableEq, Repr

/-- Modelled from the spec: one receipt row per `(message, user)` pair with
a status and an update timestamp. -/
structure Receipt where
  msgId : Nat
  userId : Nat
  status : RStatus
  ts : Nat
deriving DecidableEq, Repr

/-- Modelled from the spec: an event broadcast by the Conversation Router. -/
inductive Event where
  | message (msgId convId : Nat)
  | readUpTo (convId userId uptoId : Nat)
deriving DecidableEq, Repr

/-- Modelled from the spec: the server-side state touched by the chat core —
conversation participant sets, the session registry's subscriptions
(connection, conversation pairs), persisted messages and receipts, and the
next message identifier of the storage collaborator. -/
structure Backend where
  convs : List (Nat × List Nat)
  subs : List (Nat × Nat)
  messages : List BMessage
  receipts : List Receipt
  nextId : Nat
deriving DecidableEq, Repr

/-- Modelled from the spec: the participant set of a conversation, as
returned by the storage collaborator's `listParticipants`. -/
def participantsOf (st : Backend) (convId : Nat) : Option (List Nat) :=
  (st.convs.find? (fun p => p.1 == convId)).map Prod.snd

/-- Modelled from the spec: the outcome of the storage collaborator's
`insertMessage` call — success, deadline exceeded, or unreachable. -/
inductive StorageOutcome where
  | ok
  | storageTimeout
  | storageDown
deriving DecidableEq, Repr

/-- Modelled from the spec: the Message Pipeline's `send`.  It validates the
sender is a participant (`Forbidden` otherwise), validates the body is
non-empty after trimming (`InvalidArgument` otherwise), persists through the
storage collaborator (whose outcome enters as a parameter) obtaining the
server-assigned id and timestamp, and only after successful persistence
broadcasts a MESSAGE event; a storage failure short-circuits with no
broadcast and no state change. -/
def send (st : Backend) (outcome : StorageOutcome) (now : Nat)
    (convId senderId : Nat) (body : String) :
    Backend × Except Err BMessage × List Event :=
  match participantsOf st convId with
  | none => (st, .error .notFound, [])
  | some ps =>
    if ¬ senderId ∈ ps then (st, .error .forbidden, [])
    else if jsTrim body = "" then (st, .error .invalidArgument, [])
    else
      match outcome with
      | .storageTimeout => (st, .error .timeout, [])
      | .storageDown => (st, .error .unavailable, [])
      | .ok =>
        let msg : BMessage := { id := st.nextId, convId := convId, senderId := senderId, body := body, ts := now }
        ({ st with messages := st.messages ++ [msg], nextId := st.nextId + 1 },
         .ok msg, [.message msg.id convId])

/-- Modelled from the spec: the Session Registry's `subscribe`.  Subscribing
to a conversation the caller is not a participant of fails with `Forbidden`;
otherwise the (connection, conversation) pair is recorded. -/
def subscribe (st : Backend) (conn convId userId : Nat) :
    Backend × Except Err Unit :=
  match participantsOf st convId with
  | none => (st, .error .notFound)
  | some ps =>
    if ¬ userId ∈ ps then (st, .error .forbidden)
    else ({ st with subs := st.subs ++ [(conn, convId)] }, .ok ())

/-- Does the receipt row belong to the `(message, user)` pair? -/
def rKeyMatch (mId uId : Nat) (r : Receipt) : Bool :=
  r.msgId == mId && r.userId == uId

/-- Modelled from the spec: the storage collaborator's `upsertReceipt` for a
Read acknowledgement — update the `(message, user)` row to `read` with the
current timestamp when it exists, insert it otherwise. -/
def upsertReceipt (rs : List Receipt) (mId uId now : Nat) : List Receipt :=
  if rs.any (rKeyMatch mId uId) then
    rs.map fun r => if rKeyMatch mId uId r then { r with status := .read, ts := now } else r
  else rs ++ [⟨mId, uId, .read, now⟩]

/-- Upsert a Read receipt for each target message id in turn. -/
def applyRead (rs : List Receipt) (targets : List Nat) (uId now : Nat) : List Receipt :=
  targets.foldl (fun acc mId => upsertReceipt acc mId uId now) rs

/-- Modelled from the spec: the message ids a read acknowledgement targets —
every message of the conversation with identifier ≤ `uptoId` whose sender is
not the acknowledging user. -/
def readTargets (st : Backend) (convId userId uptoId : Nat) : List Nat :=
  (st.messages.filter fun m =>
    m.convId == convId && decide (m.id ≤ uptoId) && m.senderId != userId).map (·.id)

/-- Modelled from the spec: `markRead(conversationId, userId, uptoMessageId)`
— validates the caller is a participant (`Forbidden` otherwise), upserts a
Read receipt for every targeted message, then broadcasts one aggregated READ
event. -/
def markRead (st : Backend) (now : Nat) (convId userId uptoId : Nat) :
    Backend × Except Err Unit × List Event :=
  match participantsOf st convId with
  | none => (st, .error .notFound, [])
  | some ps =>
    if ¬ userId ∈ ps then (st, .error .forbidden, [])
    else
      ({ st with receipts := applyRead st.receipts (readTargets st convId userId uptoId) userId now },
       .ok (), [.readUpTo convId userId uptoId])

/-! ## Pagination Cursor Resolver (modelled from the spec, section 4.5) -/

/-- Modelled from the spec: a cursor encodes the `(creationTimestamp,
messageId)` pair of the oldest item returned so far. -/
abbrev Cursor := Nat × Nat

/-- The cursor key of a message. -/
def msgKey (m : BMessage) : Cursor := (m.ts, m.id)

/-- Modelled from the spec: the total cursor order — `(creation time,
identifier)`, ties broken by identifier. -/
def keyLT (a b : Cursor) : Bool :=
  a.1 < b.1 || (a.1 == b.1 && a.2 < b.2)

/-- Modelled from the spec: the maximum the page limit is clamped to. -/
def maxPageLimit : Nat := 100

/-- Modelled from the spec: the part of the history a cursor restricts a
page request to — the messages strictly before the cursor, or the whole
history when the cursor is absent. -/
def olderThan (hist : List BMessage) : Option Cursor → List BMessage
  | none => hist
  | some c => hist.filter fun m => keyLT (msgKey m) c

/-- Modelled from the spec: `page(conversationId, limit, beforeCursor?)`.
The conversation's history `hist` is held in ascending chronological order
(the storage order).  A non-positive limit fails with `InvalidArgument`; the
limit is clamped to `maxPageLimit`; with no cursor the most recent `limit`
messages are returned (taken from the descending view, then reversed back to
ascending order for delivery), otherwise those strictly before the cursor;
`nextCursor` is the key of the page's oldest item, or `none` when the page
holds fewer than the (clamped) limit. -/
def page (hist : List BMessage) (limit : Nat) (cursor : Option Cursor) :
    Except Err (List BMessage × Option Cursor) :=
  if limit = 0 then .error .invalidArgument
  else
    let lim := min limit maxPageLimit
    let older := olderThan hist cursor
    let items := (older.reverse.take lim).reverse
    let next := if items.length < lim then none else items.head?.map msgKey
    .ok (items, next)

/-- Repeatedly call `page`, following `nextCursor` until it is `none`, and
prepend each page to the pages already fetched (as the documented client
does), so that the result is the ascending concatenation of all pages.  The
fuel bounds the number of calls. -/
def collectPages (hist : List BMessage) (limit : Nat) :
    Nat → Option Cursor → List BMessage
  | 0, _ => []
  | fuel + 1, cur =>
    match page hist limit cur with
    | .error _ => []
    | .ok (items, none) => items
    | .ok (items, some c) => collectPages hist limit fuel (some c) ++ items

/-- All pages of a conversation history, fetched from the most recent one
back to the first. -/
def pageAll (hist : List BMessage) (limit : Nat) : List BMessage :=
  collectPages hist limit (hist.length + 1) none

/-! ## Presence Tracker (modelled from the spec, section 4.2) -/

/-- Modelled from the spec: the presence record of one user — the number of
live connections, the instant of the last keepalive/activity, the last-seen
timestamp and the online flag of the Offline/Online state machine. -/
structure PresenceUser where
  connCount : Nat
  lastActivity : Nat
  lastSeen : Nat
  online : Bool
deriving DecidableEq, Repr

/-- Modelled from the spec: an emitted presence event. -/
inductive PresenceEvent where
  | wentOnline
  | wentOffline
deriving DecidableEq, Repr

/-- Modelled from the spec: the inputs driving one user's presence state
machine — a connection registering or unregistering, a keepalive signal, and
a TTL sweep at a given instant. -/
inductive PresenceOp where
  | connect (t : Nat)
  | disconnect (t : Nat)
  | keepalive (t : Nat)
  | sweep (now : Nat)
deriving DecidableEq, Repr

/-- Modelled from the spec: one transition of the per-user presence state
machine.  Offline → Online on the first connection registered; Online →
Offline when the last connection unregisters or when no keepalive arrived
within the TTL window; on the transition to Offline the last-seen timestamp
is recorded and one offline event is emitted. -/
def pstep (ttl : Nat) (s : PresenceUser) : PresenceOp → PresenceUser × List PresenceEvent
  | .connect t =>
    let s' := { s with connCount := s.connCount + 1, lastActivity := t }
    if s.online then (s', [])
    else ({ s' with online := true }, [.wentOnline])
  | .disconnect t =>
    let c := s.connCount - 1
    if s.online ∧ c = 0 then
      ({ s with connCount := c, online := false, lastSeen := t }, [.wentOffline])
    else ({ s with connCount := c }, [])
  | .keepalive t => ({ s with lastActivity := t }, [])
  | .sweep now =>
    if s.online ∧ s.lastActivity + ttl < now then
      ({ s with online := false, lastSeen := s.lastActivity }, [.wentOffline])
    else (s, [])

/-- Run a sequence of presence inputs, collecting the emitted events. -/
def prun (ttl : Nat) (s : PresenceUser) : List PresenceOp → PresenceUser × List PresenceEvent
  | [] => (s, [])
  | op :: ops =>
    let (s', evs) := pstep ttl s op
    let (s'', evs') := prun ttl s' ops
    (s'', evs ++ evs')

/-- The number of Online → Offline transitions a sequence of presence
inputs causes. -/
def offlineTransitions (ttl : Nat) (s : PresenceUser) : List PresenceOp → Nat
  | [] => 0
  | op :: ops =>
    let s' := (pstep ttl s op).1
    (if s.online ∧ ¬ s'.online then 1 else 0) + offlineTransitions ttl s' ops

/-! ## Theorems -/

/-- C1: for every composer text whose trim is empty, `handleSend` leaves the
whole component state unchanged (chat list, composer text and typing flag in
particular), and the Message Pipeline's send of a trim-empty body fails with
`InvalidArgument` with no state change and no broadcast. -/
theorem emptyComposerSendRejected (newId : String) (now : Nat) (s : AppState)
    (st : Backend) (outcome : StorageOutcome) (convId senderId : Nat) (body : String)
    (ps : List Nat)
    (hcomposer : jsTrim s.newMessage = "")
    (hconv : participantsOf st convId = some ps)
    (hpart : senderId ∈ ps)
    (hbody : jsTrim body = "") :
    handleSend newId now s = s ∧
    send st outcome now convId senderId body = (st, .error .invalidArgument, []) := by
  constructor
  · simp [handleSend, hcomposer]
  · simp [send, hconv, hpart, hbody]

/-- Witness for C1 at a concrete state with a whitespace-only composer. -/
theorem emptyComposerSendRejected_witness :
    handleSend "u1" 5 ⟨[], 1, " ", false⟩ = ⟨[], 1, " ", false⟩ ∧
    send ⟨[(7, [0, 1])], [], [], [], 0⟩ .ok 5 7 0 " "
      = (⟨[(7, [0, 1])], [], [], [], 0⟩, .error .invalidArgument, []) :=
  emptyComposerSendRejected "u1" 5 ⟨[], 1, " ", false⟩ ⟨[(7, [0, 1])], [], [], [], 0⟩
    .ok 7 0 " " [0, 1] (by decide) (by decide) (by decide) (by decide)

/-- C5: clearing the unread counter of the selected chat is frame-preserving
— the list length is kept, every chat's id, name, avatar, online flag,
pinned flag and messages are untouched, and only the selected chat's unread
field becomes `0`. -/
theorem clearUnreadFramePreserving (sid : Nat) (chats : List Chat) :
    (clearUnread sid chats).length = chats.length ∧
    ∀ i (h1 : i < chats.length) (h2 : i < (clearUnread sid chats).length),
      (clearUnread sid chats)[i].id = chats[i].id ∧
      (clearUnread sid chats)[i].name = chats[i].name ∧
      (clearUnread sid chats)[i].avatar = chats[i].avatar ∧
      (clearUnread sid chats)[i].online = chats[i].online ∧
      (clearUnread sid chats)[i].pinned = chats[i].pinned ∧
      (clearUnread sid chats)[i].messages = chats[i].messages ∧
      (clearUnread sid chats)[i].unread
        = (if chats[i].id = sid then some 0 else chats[i].unread) := by
  refine ⟨by simp [clearUnread], fun i h1 h2 => ?_⟩
  simp only [clearUnread, List.getElem_map]
  by_cases h : chats[i].id = sid <;> simp [h]

/-- Witness for C5 at a two-chat list with the first chat selected. -/
theorem clearUnreadFramePreserving_witness :
    (clearUnread 1 [⟨1, "A", none, none, none, some 2, []⟩,
                    ⟨2, "B", none, none, none, some 3, []⟩])[0].unread
      = (if (1 : Nat) = 1 then some 0 else some 2) :=
  ((clearUnreadFramePreserving 1 [⟨1, "A", none, none, none, some 2, []⟩,
      ⟨2, "B", none, none, none, some 3, []⟩]).2 0 (by decide) (by decide)).2.2.2.2.2.2

/-- C8: a user who is not a participant of an existing conversation gets a
`Forbidden` failure from `send`, `subscribe` and `markRead`, with the
backend state returned unchanged and nothing broadcast. -/
theorem nonParticipantForbidden (st : Backend) (outcome : StorageOutcome)
    (now conn convId userId uptoId : Nat) (body : String) (ps : List Nat)
    (hconv : participantsOf st convId = some ps) (hnp : userId ∉ ps) :
    send st outcome now convId userId body = (st, .error .forbidden, []) ∧
    subscribe st conn convId userId = (st, .error .forbidden) ∧
    markRead st now convId userId uptoId = (st, .error .forbidden, []) := by
  refine ⟨?_, ?_, ?_⟩ <;> simp [send, subscribe, markRead, hconv, hnp]

/-- Witness for C8: user 2 is not a participant of conversation 7. -/
theorem nonParticipantForbidden_witness :
    send ⟨[(7, [0, 1])], [], [], [], 0⟩ .ok 5 7 2 "hi"
      = (⟨[(7, [0, 1])], [], [], [], 0⟩, .error .forbidden, []) ∧
    subscribe ⟨[(7, [0, 1])], [], [], [], 0⟩ 40 7 2
      = (⟨[(7, [0, 1])], [], [], [], 0⟩, .error .forbidden) ∧
    markRead ⟨[(7, [0, 1])], [], [], [], 0⟩ 5 7 2 3
      = (⟨[(7, [0, 1])], [], [], [], 0⟩, .error .forbidden, []) :=
  nonParticipantForbidden ⟨[(7, [0, 1])], [], [], [], 0⟩ .ok 5 40 7 2 3 "hi" [0, 1]
    (by decide) (by decide)

/-- C9: a valid send broadcasts a MESSAGE event exactly when persistence
succeeded; a storage timeout or outage short-circuits with the matching
error, no broadcast and no state change. -/
theorem sendBroadcastAtomic (st : Backend) (outcome : StorageOutcome)
    (now convId senderId : Nat) (body : String) (ps : List Nat)
    (hconv : participantsOf st convId = some ps) (hp : senderId ∈ ps)
    (hb : jsTrim body ≠ "") :
    ((send st outcome now convId senderId body).2.2 ≠ [] ↔ outcome = .ok) ∧
    send st .storageTimeout now convId senderId body = (st, .error .timeout, []) ∧
    send st .storageDown now convId senderId body = (st, .error .unavailable, []) ∧
    (outcome ≠ .ok → (send st outcome now convId senderId body).1 = st) := by
  refine ⟨?_, ?_, ?_, ?_⟩ <;> cases outcome <;> simp [send, hconv, hp, hb]

/-- Witness for C9: a send to conversation 7 by participant 0. -/
theorem sendBroadcastAtomic_witness :
    ((send ⟨[(7, [0, 1])], [], [], [], 0⟩ .ok 5 7 0 "hi").2.2 ≠ [] ↔
      StorageOutcome.ok = .ok) ∧
    send ⟨[(7, [0, 1])], [], [], [], 0⟩ .storageTimeout 5 7 0 "hi"
      = (⟨[(7, [0, 1])], [], [], [], 0⟩, .error .timeout, []) :=
  ⟨(sendBroadcastAtomic ⟨[(7, [0, 1])], [], [], [], 0⟩ .ok 5 7 0 "hi" [0, 1]
      (by decide) (by decide) (by decide)).1,
   (sendBroadcastAtomic ⟨[(7, [0, 1])], [], [], [], 0⟩ .ok 5 7 0 "hi" [0, 1]
      (by decide) (by decide) (by decide)).2.1⟩

/-- Each presence step emits one offline event when it transitions the user
from Online to Offline, and none otherwise. -/
lemma pstep_offline_count (ttl : Nat) (s : PresenceUser) (op : PresenceOp) :
    ((pstep ttl s op).2.count .wentOffline)
      = if s.online ∧ ¬ (pstep ttl s op).1.online then 1 else 0 := by
  cases op <;> simp only [pstep] <;> split <;>
    simp_all [List.count_cons, List.count_nil]

/-- A presence step that transitions the user from Online to Offline emits
exactly the single offline event. -/
lemma pstep_offline_events (ttl : Nat) (s : PresenceUser) (op : PresenceOp)
    (h1 : s.online = true) (h2 : (pstep ttl s op).1.online = false) :
    (pstep ttl s op).2 = [.wentOffline] := by
  cases op <;> simp only [pstep] at h2 ⊢ <;> (try split at h2) <;> simp_all

/-- C10: the presence state machine never emits an offline event while the
user is already Offline, each step emits at most one offline event and emits
exactly one on each Online → Offline transition, and over any input sequence
the number of offline events equals the number of Online → Offline
transitions (TTL expiries and last-connection disconnects). -/
theorem presenceOfflineExactlyOnce (ttl : Nat) (s : PresenceUser)
    (op : PresenceOp) (ops : List PresenceOp) :
    ((pstep ttl s op).2.count .wentOffline ≤ 1) ∧
    (PresenceEvent.wentOffline ∈ (pstep ttl s op).2 →
      s.online = true ∧ (pstep ttl s op).1.online = false) ∧
    (s.online = true → (pstep ttl s op).1.online = false →
      (pstep ttl s op).2 = [.wentOffline]) ∧
    ((prun ttl s ops).2.count .wentOffline = offlineTransitions ttl s ops) := by
  refine ⟨?_, ?_, pstep_offline_events ttl s op, ?_⟩
  · rw [pstep_offline_count]
    split <;> omega
  · intro hmem
    have hpos : 0 < (pstep ttl s op).2.count .wentOffline :=
      List.count_pos_iff.mpr hmem
    rw [pstep_offline_count] at hpos
    split at hpos
    case isTrue h => exact ⟨h.1, by simpa using h.2⟩
    case isFalse h => omega
  · induction ops generalizing s with
    | nil => simp [prun, offlineTransitions]
    | cons o os ih =>
      simp only [prun, offlineTransitions, List.count_append]
      rw [pstep_offline_count, ih]

/-- Witness for C10: disconnecting the last connection of an online user
emits the single offline event, and a trace with a later redundant sweep
still counts one offline event, matching its one transition. -/
theorem presenceOfflineExactlyOnce_witness :
    (pstep 5 ⟨1, 0, 0, true⟩ (.disconnect 3)).2 = [.wentOffline] ∧
    (prun 5 ⟨1, 0, 0, true⟩ [.disconnect 3, .sweep 100]).2.count .wentOffline
      = offlineTransitions 5 ⟨1, 0, 0, true⟩ [.disconnect 3, .sweep 100] :=
  ⟨(presenceOfflineExactlyOnce 5 ⟨1, 0, 0, true⟩ (.disconnect 3) []).2.2.1
      (by decide) (by decide),
   (presenceOfflineExactlyOnce 5 ⟨1, 0, 0, true⟩ (.disconnect 3)
      [.disconnect 3, .sweep 100]).2.2.2⟩

/-- A receipt row for the `(mId, uId)` pair exists. -/
def receiptPresent (uId : Nat) (rs : List Receipt) (mId : Nat) : Prop :=
  ∃ r ∈ rs, rKeyMatch mId uId r = true

/-- Every receipt row for the `(mId, uId)` pair is already `read` with
update timestamp `now`. -/
def receiptDone (uId now : Nat) (rs : List Receipt) (mId : Nat) : Prop :=
  ∀ r ∈ rs, rKeyMatch mId uId r = true → r.status = .read ∧ r.ts = now

/-- Upserting a read receipt makes its row present and read. -/
lemma upsertReceipt_establishes (rs : List Receipt) (mId uId now : Nat) :
    receiptPresent uId (upsertReceipt rs mId uId now) mId ∧
    receiptDone uId now (upsertReceipt rs mId uId now) mId := by
  unfold upsertReceipt
  by_cases hany : rs.any (rKeyMatch mId uId) = true
  · obtain ⟨r, hr, hm⟩ := List.any_eq_true.mp hany
    simp only [hany, if_true]
    constructor
    · exact ⟨{ r with status := .read, ts := now },
        List.mem_map.mpr ⟨r, hr, by simp [hm]⟩, by simpa [rKeyMatch] using hm⟩
    · intro r' hr' hm'
      obtain ⟨r₀, hr₀, rfl⟩ := List.mem_map.mp hr'
      by_cases h0 : rKeyMatch mId uId r₀ = true
      · simp [h0]
      · simp [h0] at hm'
  · simp only [hany, if_false]
    have hno := List.any_eq_false.mp (Bool.not_eq_true _ ▸ hany)
    constructor
    · exact ⟨⟨mId, uId, .read, now⟩, by simp, by simp [rKeyMatch]⟩
    · intro r hr hm
      rcases List.mem_append.mp hr with h | h
      · exact absurd hm (hno r h)
      · simp only [List.mem_singleton] at h
        subst h
        exact ⟨rfl, rfl⟩

/-- Upserting any read receipt preserves presence and read-ness of every
pair's rows. -/
lemma upsertReceipt_preserves (rs : List Receipt) (mId uId m' now : Nat)
    (hp : receiptPresent uId rs mId) (hd : receiptDone uId now rs mId) :
    receiptPresent uId (upsertReceipt rs m' uId now) mId ∧
    receiptDone uId now (upsertReceipt rs m' uId now) mId := by
  unfold upsertReceipt
  by_cases hany : rs.any (rKeyMatch m' uId) = true
  · simp only [hany, if_true]
    constructor
    · obtain ⟨r, hr, hm⟩ := hp
      by_cases h' : rKeyMatch m' uId r = true
      · exact ⟨{ r with status := .read, ts := now },
          List.mem_map.mpr ⟨r, hr, by simp [h']⟩, by simpa [rKeyMatch] using hm⟩
      · exact ⟨r, List.mem_map.mpr ⟨r, hr, by simp [h']⟩, hm⟩
    · intro r' hr' hm'
      obtain ⟨r₀, hr₀, rfl⟩ := List.mem_map.mp hr'
      by_cases h0 : rKeyMatch m' uId r₀ = true
      · simp [h0]
      · simp only [h0, if_false] at hm' ⊢
        exact hd r₀ hr₀ hm'
  · simp only [hany, if_false]
    constructor
    · obtain ⟨r, hr, hm⟩ := hp
      exact ⟨r, List.mem_append_left _ hr, hm⟩
    · intro r hr hm
      rcases List.mem_append.mp hr with h | h
      · exact hd r h hm
      · simp only [List.mem_singleton] at h
        subst h
        exact ⟨rfl, rfl⟩

/-- Applying a batch of read upserts preserves presence and read-ness. -/
lemma applyRead_preserves (targets : List Nat) (rs : List Receipt) (mId uId now : Nat)
    (hp : receiptPresent uId rs mId) (hd : receiptDone uId now rs mId) :
    receiptPresent uId (applyRead rs targets uId now) mId ∧
    receiptDone uId now (applyRead rs targets uId now) mId := by
  induction targets generalizing rs with
  | nil => exact ⟨hp, hd⟩
  | cons t ts ih =>
    have h := upsertReceipt_preserves rs mId uId t now hp hd
    exact ih (upsertReceipt rs t uId now) h.1 h.2

/-- After a batch of read upserts, every targeted pair is present and read. -/
lemma applyRead_establishes (targets : List Nat) (rs : List Receipt) (uId now : Nat) :
    ∀ mId ∈ targets, receiptPresent uId (applyRead rs targets uId now) mId ∧
      receiptDone uId now (applyRead rs targets uId now) mId := by
  induction targets generalizing rs with
  | nil => simp
  | cons t ts ih =>
    intro mId hm
    rcases List.mem_cons.mp hm with rfl | hm'
    · have h := upsertReceipt_establishes rs mId uId now
      exact applyRead_preserves ts _ mId uId now h.1 h.2
    · exact ih (upsertReceipt rs t uId now) mId hm'

/-- Upserting a pair whose rows are already present and read is a no-op. -/
lemma upsertReceipt_noop (rs : List Receipt) (mId uId now : Nat)
    (hp : receiptPresent uId rs mId) (hd : receiptDone uId now rs mId) :
    upsertReceipt rs mId uId now = rs := by
  unfold upsertReceipt
  obtain ⟨r, hr, hm⟩ := hp
  have hany : rs.any (rKeyMatch mId uId) = true := List.any_eq_true.mpr ⟨r, hr, hm⟩
  simp only [hany, if_true]
  have : ∀ r' ∈ rs,
      (if rKeyMatch mId uId r' then { r' with status := RStatus.read, ts := now } else r') = r' := by
    intro r' hr'
    by_cases h' : rKeyMatch mId uId r' = true
    · obtain ⟨h1, h2⟩ := hd r' hr' h'
      cases r'
      simp_all
    · simp [h']
  rw [List.map_congr_left this]
  simp

/-- A batch of read upserts over already-read targets is a no-op. -/
lemma applyRead_noop (targets : List Nat) (rs : List Receipt) (uId now : Nat)
    (h : ∀ mId ∈ targets, receiptPresent uId rs mId ∧ receiptDone uId now rs mId) :
    applyRead rs targets uId now = rs := by
  induction targets with
  | nil => rfl
  | cons t ts ih =>
    have ht := h t (List.mem_cons_self t ts)
    show applyRead (upsertReceipt rs t uId now) ts uId now = rs
    rw [upsertReceipt_noop rs t uId now ht.1 ht.2]
    exact ih fun mId hm => h mId (List.mem_cons_of_mem t hm)

/-- Applying the same batch of read upserts twice equals applying it once. -/
lemma applyRead_idem (targets : List Nat) (rs : List Receipt) (uId now : Nat) :
    applyRead (applyRead rs targets uId now) targets uId now
      = applyRead rs targets uId now :=
  applyRead_noop targets _ uId now (applyRead_establishes targets rs uId now)

/-- The state a successful `markRead` produces. -/
def markReadState (st : Backend) (now convId userId uptoId : Nat) : Backend :=
  { st with receipts := (applyRead st.receipts (readTargets st convId userId uptoId) userId now) }

/-- C3: marking a conversation read is idempotent — the frontend unread
clearing applied twice equals applied once, and the backend `markRead`
applied twice with the same arguments produces the same state (receipts in
particular) as applied once. -/
theorem readAckIdempotent (sid : Nat) (chats : List Chat)
    (st : Backend) (now convId userId uptoId : Nat) :
    clearUnread sid (clearUnread sid chats) = clearUnread sid chats ∧
    (markRead (markRead st now convId userId uptoId).1 now convId userId uptoId).1
      = (markRead st now convId userId uptoId).1 := by
  constructor
  · unfold clearUnread
    rw [List.map_map]
    apply List.map_congr_left
    intro c _
    by_cases h : c.id = sid <;> simp [h]
  · cases hc : participantsOf st convId with
    | none =>
      have h1 : (markRead st now convId userId uptoId).1 = st := by
        simp [markRead, hc]
      rw [h1]
      exact h1
    | some ps =>
      by_cases hu : userId ∈ ps
      · have h1 : (markRead st now convId userId uptoId).1
            = markReadState st now convId userId uptoId := by
          simp [markRead, markReadState, hc, hu]
        have hc' : participantsOf (markReadState st now convId userId uptoId) convId
            = some ps := hc
        have h2 : (markRead (markReadState st now convId userId uptoId)
              now convId userId uptoId).1
            = { st with receipts := (applyRead (applyRead st.receipts (readTargets st convId userId uptoId) userId now) (readTargets st convId userId uptoId) userId now) } := by
          simp only [markRead, hc', hu, not_true_eq_false, if_false]
          simp [markReadState, readTargets]
        rw [h1, h2, applyRead_idem]
        rfl
      · have h1 : (markRead st now convId userId uptoId).1 = st := by
          simp [markRead, hc, hu]
        rw [h1]
        exact h1

/-- Mapping an id-preserving function over the chat list commutes with
looking up a chat by id. -/
lemma find?_map_of_id (chats : List Chat) (sid : Nat) (f : Chat → Chat)
    (hf : ∀ c, (f c).id = c.id) :
    (chats.map f).find? (fun c => c.id == sid)
      = (chats.find? (fun c => c.id == sid)).map f := by
  induction chats with
  | nil => rfl
  | cons c cs ih =>
    by_cases h : c.id == sid
    · simp [List.find?_cons, hf, h]
    · simp only [List.map_cons, List.find?_cons, hf c, h]
      exact ih

/-- A successful `handleSend` appends exactly the composed message to the
selected chat's message list. -/
lemma getMessages_handleSend (newId : String) (now : Nat) (s : AppState)
    (h : jsTrim s.newMessage ≠ "") :
    (handleSend newId now s).selectedId = s.selectedId ∧
    ((handleSend newId now s).chats.find? (fun c => c.id == s.selectedId)).isSome
      = (s.chats.find? (fun c => c.id == s.selectedId)).isSome ∧
    ((s.chats.find? (fun c => c.id == s.selectedId)).isSome = true →
      getMessages (handleSend newId now s).chats s.selectedId
        = getMessages s.chats s.selectedId
          ++ [⟨newId, .me, jsTrim s.newMessage, now, some .sent⟩]) := by
  have hchats : (handleSend newId now s).chats
      = s.chats.map fun c =>
          if c.id = s.selectedId
          then { c with messages := c.messages ++ [⟨newId, .me, jsTrim s.newMessage, now, some .sent⟩] }
          else c := by
    simp [handleSend, h]
  have hid : ∀ c : Chat,
      ((fun c => if c.id = s.selectedId
          then { c with messages := c.messages ++ [⟨newId, .me, jsTrim s.newMessage, now, some .sent⟩] }
          else c) c).id = c.id := by
    intro c
    by_cases hc : c.id = s.selectedId <;> simp [hc]
  have hsel : (handleSend newId now s).selectedId = s.selectedId := by
    simp [handleSend, h]
  have hfind := find?_map_of_id s.chats s.selectedId _ hid
  refine ⟨hsel, ?_, ?_⟩
  · rw [hchats, hfind]
    simp
  · intro hex
    rw [Option.isSome_iff_exists] at hex
    obtain ⟨c, hc⟩ := hex
    have hcid := List.find?_some hc
    rw [getMessages, getMessages, hchats, hfind, hc]
    simp only [Option.map_some]
    have hceq : c.id = s.selectedId := by simpa using hcid
    simp [hceq]

/-- One composer interaction with a non-blank text keeps the selection,
keeps the selected chat present, and appends exactly the composed message. -/
lemma getMessages_sendOne (s : AppState) (i : SendInput)
    (hi : jsTrim i.text ≠ "") :
    (sendOne s i).selectedId = s.selectedId ∧
    ((sendOne s i).chats.find? (fun c => c.id == s.selectedId)).isSome
      = (s.chats.find? (fun c => c.id == s.selectedId)).isSome ∧
    ((s.chats.find? (fun c => c.id == s.selectedId)).isSome = true →
      getMessages (sendOne s i).chats s.selectedId
        = getMessages s.chats s.selectedId ++ [mkSentMessage i]) := by
  have h := getMessages_handleSend i.newId i.now { s with newMessage := i.text } hi
  dsimp only at h
  exact h

/-- A sequence of successful sends appends the composed messages, in send
order, to the selected chat's message list. -/
lemma sendMany_messages (l : List SendInput) (s : AppState)
    (hne : ∀ i ∈ l, jsTrim i.text ≠ "")
    (hex : (s.chats.find? (fun c => c.id == s.selectedId)).isSome = true) :
    (sendMany s l).selectedId = s.selectedId ∧
    getMessages (sendMany s l).chats s.selectedId
      = getMessages s.chats s.selectedId ++ l.map mkSentMessage := by
  induction l generalizing s with
  | nil => simp [sendMany]
  | cons i is ih =>
    have hi : jsTrim i.text ≠ "" := hne i (List.mem_cons_self i is)
    have hstep := getMessages_sendOne s i hi
    have hex1 : ((sendOne s i).chats.find?
        (fun c => c.id == (sendOne s i).selectedId)).isSome = true := by
      rw [hstep.1]
      exact hstep.2.1.trans hex
    have ihs := ih (sendOne s i)
      (fun j hj => hne j (List.mem_cons_of_mem i hj)) hex1
    constructor
    · show (sendMany (sendOne s i) is).selectedId = s.selectedId
      rw [ihs.1, hstep.1]
    · show getMessages (sendMany (sendOne s i) is).chats s.selectedId
        = getMessages s.chats s.selectedId ++ (i :: is).map mkSentMessage
      have h2 := ihs.2
      rw [hstep.1] at h2
      rw [h2, hstep.2.2 hex]
      simp

/-- C2: for every sequence of successful sends to the selected conversation,
the resulting message list of that conversation is the original list with
the sent messages appended at the end in exactly the send order, so a
subscriber rendering the list observes the send order with no reordering. -/
theorem sendOrderPreserved (s : AppState) (l : List SendInput)
    (hne : ∀ i ∈ l, jsTrim i.text ≠ "")
    (hsel : (s.chats.find? (fun c => c.id == s.selectedId)).isSome = true) :
    getMessages (sendMany s l).chats s.selectedId
      = getMessages s.chats s.selectedId ++ l.map mkSentMessage :=
  (sendMany_messages l s hne hsel).2

/-- Witness for C2: two sends to the selected chat land appended in order. -/
theorem sendOrderPreserved_witness :
    getMessages (sendMany ⟨[⟨1, "A", none, none, none, none, []⟩], 1, "", false⟩
        [⟨"u1", 3, "hi"⟩, ⟨"u2", 4, " yo "⟩]).chats 1
      = [] ++ [⟨"u1", .me, "hi", 3, some .sent⟩, ⟨"u2", .me, "yo", 4, some .sent⟩] := by
  have h := sendOrderPreserved ⟨[⟨1, "A", none, none, none, none, []⟩], 1, "", false⟩
    [⟨"u1", 3, "hi"⟩, ⟨"u2", 4, " yo "⟩] (by decide) (by decide)
  rw [h]
  rfl

/-- Well-formed group lists: every group is non-empty and homogeneous in its
day label. -/
def GroupsWF (dl : Nat → String) (gs : List DayGroup) : Prop :=
  ∀ g ∈ gs, g.items ≠ [] ∧ ∀ m ∈ g.items, dl m.at' = g.day

/-- Concatenating group items distributes over appending one group. -/
lemma groupItems_append (gs : List DayGroup) (g : DayGroup) :
    groupItems (gs ++ [g]) = groupItems gs ++ g.items := by
  induction gs with
  | nil => simp [groupItems]
  | cons g' gs' ih => simp [groupItems, List.foldr_cons] at ih ⊢; simp [ih]

/-- One grouping step preserves well-formedness and appends exactly the new
message to the concatenation of the groups. -/
lemma groupsStep_sound (dl : Nat → String) (out : List DayGroup) (m : Message)
    (hwf : GroupsWF dl out) :
    GroupsWF dl (groupsStep dl out m) ∧
    groupItems (groupsStep dl out m) = groupItems out ++ [m] := by
  unfold groupsStep
  cases hg : out.getLast? with
  | none =>
    dsimp only
    have hnil : out = [] := List.getLast?_eq_none_iff.mp hg
    subst hnil
    constructor
    · intro g hgmem
      simp only [List.nil_append, List.mem_singleton] at hgmem
      subst hgmem
      exact ⟨by simp, by simp⟩
    · simp [groupItems]
  | some last =>
    dsimp only
    have hne : out ≠ [] := by
      intro h
      rw [h] at hg
      simp at hg
    have hlast : out.getLast hne = last := by
      rw [List.getLast?_eq_getLast out hne] at hg
      exact (Option.some_inj.mp hg)
    have hout : out.dropLast ++ [last] = out := by
      rw [← hlast]
      exact List.dropLast_append_getLast hne
    have hmem : last ∈ out := by
      rw [← hout]
      exact List.mem_append_right _ (List.mem_singleton.mpr rfl)
    by_cases hif : dl ((last.items.headD m).at') ≠ dl m.at'
    · rw [if_pos hif]
      constructor
      · intro g hgmem
        rcases List.mem_append.mp hgmem with h | h
        · exact hwf g h
        · simp only [List.mem_singleton] at h
          subst h
          exact ⟨by simp, by simp⟩
      · exact groupItems_append out _
    · rw [if_neg hif]
      obtain ⟨hlne, hlbl⟩ := hwf last hmem
      obtain ⟨x, xs, hx⟩ := List.exists_cons_of_ne_nil hlne
      have hhead : last.items.headD m = x := by rw [hx]; rfl
      have hxlbl : dl x.at' = last.day := hlbl x (by rw [hx]; exact List.mem_cons_self x xs)
      have hmlbl : dl m.at' = last.day := by
        rw [not_not] at hif
        rw [← hif, hhead, hxlbl]
      constructor
      · intro g hgmem
        rcases List.mem_append.mp hgmem with h | h
        · exact hwf g ((List.dropLast_sublist out).subset h)
        · simp only [List.mem_singleton] at h
          subst h
          refine ⟨by simp [hlne], ?_⟩
          intro m' hm'
          rcases List.mem_append.mp hm' with h' | h'
          · exact hlbl m' h'
          · simp only [List.mem_singleton] at h'
            subst h'
            exact hmlbl
      · rw [groupItems_append]
        have h1 : groupItems out = groupItems out.dropLast ++ last.items := by
          conv_lhs => rw [← hout]
          exact groupItems_append _ _
        rw [h1, List.append_assoc]

/-- Folding the grouping step over a message list preserves well-formedness
and concatenates to the processed messages. -/
lemma dayGroups_fold (dl : Nat → String) (msgs : List Message)
    (out : List DayGroup) (hwf : GroupsWF dl out) :
    GroupsWF dl (msgs.foldl (groupsStep dl) out) ∧
    groupItems (msgs.foldl (groupsStep dl) out) = groupItems out ++ msgs := by
  induction msgs generalizing out with
  | nil => simpa using hwf
  | cons m ms ih =>
    have hstep := groupsStep_sound dl out m hwf
    have ihs := ih (groupsStep dl out m) hstep.1
    refine ⟨ihs.1, ?_⟩
    rw [List.foldl_cons, ihs.2, hstep.2, List.append_assoc]
    rfl

/-- C4: day grouping is a lossless partition — concatenating the groups'
items in group order yields exactly the original message list, and every
group is non-empty with all its items sharing the group's day label.  The
day-label function is arbitrary, covering every render date. -/
theorem dayGroupingPartition (dl : Nat → String) (msgs : List Message) :
    groupItems (dayGroups dl msgs) = msgs ∧
    ∀ g ∈ dayGroups dl msgs, g.items ≠ [] ∧ ∀ m ∈ g.items, dl m.at' = g.day := by
  have h := dayGroups_fold dl msgs [] (by intro g hg; simp at hg)
  exact ⟨by simpa [groupItems] using h.2, h.1⟩

/-- Witness for C4: grouping two same-day messages and one later message
produces the identity concatenation, and the first group's label matches
its first item. -/
theorem dayGroupingPartition_witness :
    groupItems (dayGroups (fun n => if n < 3 then "d0" else "d1")
        [⟨"a", .them, "x", 0, none⟩, ⟨"b", .me, "y", 1, none⟩, ⟨"c", .them, "z", 5, none⟩])
      = [⟨"a", .them, "x", 0, none⟩, ⟨"b", .me, "y", 1, none⟩, ⟨"c", .them, "z", 5, none⟩] ∧
    (fun n => if n < 3 then "d0" else "d1") (⟨"a", .them, "x", 0, none⟩ : Message).at'
      = (⟨"d0", [⟨"a", .them, "x", 0, none⟩, ⟨"b", .me, "y", 1, none⟩]⟩ : DayGroup).day :=
  ⟨(dayGroupingPartition (fun n => if n < 3 then "d0" else "d1")
      [⟨"a", .them, "x", 0, none⟩, ⟨"b", .me, "y", 1, none⟩, ⟨"c", .them, "z", 5, none⟩]).1,
   ((dayGroupingPartition (fun n => if n < 3 then "d0" else "d1")
      [⟨"a", .them, "x", 0, none⟩, ⟨"b", .me, "y", 1, none⟩, ⟨"c", .them, "z", 5, none⟩]).2
      ⟨"d0", [⟨"a", .them, "x", 0, none⟩, ⟨"b", .me, "y", 1, none⟩]⟩ (by decide)).2
      ⟨"a", .them, "x", 0, none⟩ (by decide)⟩

/-- The sort comparator's non-strict order in terms of pinnedness. -/
lemma chatLE_eq (a b : Chat) :
    decide (chatCmp a b ≤ 0) = (isPinned a || !isPinned b) := by
  unfold chatCmp pinnedVal
  cases ha : isPinned a <;> cases hb : isPinned b <;> simp

/-- The comparator order is transitive. -/
lemma chatLE_trans (a b c : Chat) :
    decide (chatCmp a b ≤ 0) = true → decide (chatCmp b c ≤ 0) = true →
    decide (chatCmp a c ≤ 0) = true := by
  rw [chatLE_eq, chatLE_eq, chatLE_eq]
  cases isPinned a <;> cases isPinned b <;> cases isPinned c <;> simp

/-- The comparator order is total. -/
lemma chatLE_total (a b : Chat) :
    (decide (chatCmp a b ≤ 0) || decide (chatCmp b a ≤ 0)) = true := by
  rw [chatLE_eq, chatLE_eq]
  cases isPinned a <;> cases isPinned b <;> simp

/-- The ECMAScript stable sort by the pinned comparator is exactly: the
pinned chats in original order, then the unpinned chats in original order. -/
lemma sortChats_eq (chats : List Chat) :
    sortChats chats
      = chats.filter isPinned ++ chats.filter (fun c => !isPinned c) := by
  induction chats with
  | nil => simp [sortChats]
  | cons a l ih =>
    obtain ⟨l₁, l₂, h1, h2, h3⟩ :=
      List.mergeSort_cons chatLE_trans chatLE_total a l
    rw [sortChats] at ih ⊢
    by_cases hp : isPinned a = true
    · have hl₁ : l₁ = [] := by
        cases l₁ with
        | nil => rfl
        | cons b bs =>
          have := h3 b (List.mem_cons_self b bs)
          rw [chatLE_eq, hp] at this
          simp at this
      subst hl₁
      simp only [List.nil_append] at h1 h2
      rw [h1, List.filter_cons_of_pos hp, List.filter_cons_of_neg (by simp [hp])]
      rw [← h2, ih]
      rfl
    · have hp' : isPinned a = false := by simpa using hp
      have hl₁p : ∀ b ∈ l₁, isPinned b = true := by
        intro b hb
        have := h3 b hb
        rw [chatLE_eq, hp'] at this
        simpa using this
      have hsorted := List.sorted_mergeSort chatLE_trans chatLE_total (a :: l)
      rw [h1] at hsorted
      have hl₂p : ∀ b ∈ l₂, isPinned b = false := by
        have hcons := (List.pairwise_append.mp hsorted).2.1
        have := (List.pairwise_cons.mp hcons).1
        intro b hb
        have hab := this b hb
        rw [chatLE_eq, hp'] at hab
        simpa using hab
      have hkey : l₁ ++ l₂ = l.filter isPinned ++ l.filter (fun c => !isPinned c) := by
        rw [← h2, ih]
      have hl₁eq : l₁ = l.filter isPinned := by
        have hf := congrArg (List.filter isPinned) hkey
        have e0 : List.filter isPinned l₁ = l₁ := List.filter_eq_self.mpr hl₁p
        have e1 : List.filter isPinned l₂ = [] :=
          List.filter_eq_nil_iff.mpr (fun b hb => by simp [hl₂p b hb])
        have e2 : List.filter isPinned (List.filter (fun c => !isPinned c) l) = [] := by
          rw [List.filter_filter]
          exact List.filter_eq_nil_iff.mpr (fun b _ => by simp)
        have e3 : List.filter isPinned (List.filter isPinned l)
            = List.filter isPinned l := by
          simp [List.filter_filter]
        rw [List.filter_append, List.filter_append, e0, e1, e2, e3,
          List.append_nil, List.append_nil] at hf
        exact hf
      have hl₂eq : l₂ = l.filter (fun c => !isPinned c) := by
        apply @List.append_cancel_left _ l₁
        rw [hkey, hl₁eq]
      rw [h1, hl₁eq, hl₂eq, List.filter_cons_of_neg (by simp [hp']),
        List.filter_cons_of_pos (by simp [hp'])]

/-- The empty character list is contained in every character list. -/
lemma listContainsSub_nil (hay : List Char) : listContainsSub [] hay = true := by
  cases hay with
  | nil => rfl
  | cons x xs => rfl

/-- The empty query matches every chat. -/
lemma matchesQuery_empty (c : Chat) : matchesQuery "" c = true := by
  unfold matchesQuery
  have h : (jsToLower "").data = [] := rfl
  rw [h]
  exact listContainsSub_nil _

/-- C6: the sidebar filter is sound and complete — it equals the pinned
chats matching the query (in original order) followed by the unpinned chats
matching the query (in original order); each chat occurs exactly as often as
in the source list when its name contains the query case-insensitively and
never otherwise; and the empty query keeps every chat. -/
theorem sidebarFilterSoundComplete (chats : List Chat) (query : String) :
    filtered chats query
      = chats.filter (fun c => isPinned c && matchesQuery query c)
        ++ chats.filter (fun c => !isPinned c && matchesQuery query c) ∧
    (∀ c : Chat, (filtered chats query).count c
      = if matchesQuery query c then chats.count c else 0) ∧
    (∀ c : Chat, c ∈ filtered chats "" ↔ c ∈ chats) := by
  have hchar : filtered chats query
      = chats.filter (fun c => isPinned c && matchesQuery query c)
        ++ chats.filter (fun c => !isPinned c && matchesQuery query c) := by
    rw [filtered, sortChats_eq, List.filter_append, List.filter_filter, List.filter_filter]
    congr 1
    · apply List.filter_congr
      intro b _
      simp [Bool.and_comm]
    · apply List.filter_congr
      intro b _
      simp [Bool.and_comm]
  refine ⟨hchar, ?_, ?_⟩
  · intro c
    rw [hchar, List.count_append]
    by_cases hm : matchesQuery query c = true
    · by_cases hpin : isPinned c = true
      · have hz : List.count c
            (chats.filter (fun x => !isPinned x && matchesQuery query x)) = 0 := by
          rw [List.count_eq_zero]
          intro hmem
          have h2 := (List.mem_filter.mp hmem).2
          simp [hpin] at h2
        rw [hz, List.count_filter (by simp [hm, hpin]), if_pos hm]
        simp
      · have hpin' : isPinned c = false := by simpa using hpin
        have hz : List.count c
            (chats.filter (fun x => isPinned x && matchesQuery query x)) = 0 := by
          rw [List.count_eq_zero]
          intro hmem
          have h2 := (List.mem_filter.mp hmem).2
          simp [hpin'] at h2
        rw [hz, List.count_filter (by simp [hm, hpin']), if_pos hm]
        simp
    · have hz1 : List.count c
          (chats.filter (fun x => isPinned x && matchesQuery query x)) = 0 := by
        rw [List.count_eq_zero]
        intro hmem
        have h2 := (List.mem_filter.mp hmem).2
        rw [Bool.and_eq_true] at h2
        exact hm h2.2
      have hz2 : List.count c
          (chats.filter (fun x => !isPinned x && matchesQuery query x)) = 0 := by
        rw [List.count_eq_zero]
        intro hmem
        have h2 := (List.mem_filter.mp hmem).2
        rw [Bool.and_eq_true] at h2
        exact hm h2.2
      rw [hz1, hz2, if_neg hm]
  · intro c
    rw [filtered]
    constructor
    · intro hmem
      exact List.mem_mergeSort.mp (List.mem_filter.mp hmem).1
    · intro hmem
      exact List.mem_filter.mpr
        ⟨List.mem_mergeSort.mpr hmem, matchesQuery_empty c⟩

/-- The cursor order is irreflexive. -/
lemma keyLT_irrefl (a : Cursor) : keyLT a a = false := by
  unfold keyLT
  simp

/-- The cursor order is asymmetric. -/
lemma keyLT_asymm {a b : Cursor} (h : keyLT a b = true) : keyLT b a = false := by
  cases hba : keyLT b a
  · rfl
  · exfalso
    unfold keyLT at h hba
    simp only [Bool.or_eq_true, Bool.and_eq_true, beq_iff_eq, decide_eq_true_eq] at h hba
    rcases h with h1 | ⟨h1, h2⟩ <;> rcases hba with t1 | ⟨t1, t2⟩ <;> omega

/-- Taking the last `n` elements, phrased on the reversed list as the page
resolver does, equals dropping all but the last `n`. -/
lemma takeLast_eq {α : Type} (l : List α) (n : Nat) :
    (l.reverse.take n).reverse = l.drop (l.length - n) := by
  rw [List.take_reverse, List.reverse_reverse]

/-- On a strictly ascending history, the messages strictly before the key of
the `j`-th message are exactly the first `j` messages. -/
lemma filter_keyLT_take (hist : List BMessage)
    (hs : List.Pairwise (fun a b => keyLT (msgKey a) (msgKey b) = true) hist)
    (j : Nat) (hj : j < hist.length) :
    hist.filter (fun m => keyLT (msgKey m) (msgKey hist[j])) = hist.take j := by
  have hsplit : hist.take j ++ hist.drop j = hist := List.take_append_drop j hist
  have hdrop : hist.drop j = hist[j] :: hist.drop (j + 1) := List.drop_eq_getElem_cons hj
  have hpw : List.Pairwise (fun a b => keyLT (msgKey a) (msgKey b) = true)
      (hist.take j ++ hist.drop j) := by rw [hsplit]; exact hs
  obtain ⟨hp1, hp2, hp12⟩ := List.pairwise_append.mp hpw
  have hmemj : hist[j] ∈ hist.drop j := by
    rw [hdrop]
    exact List.mem_cons_self _ _
  have htake : ∀ x ∈ hist.take j, keyLT (msgKey x) (msgKey hist[j]) = true :=
    fun x hx => hp12 x hx hist[j] hmemj
  have hdropf : ∀ x ∈ hist.drop j, ¬ keyLT (msgKey x) (msgKey hist[j]) = true := by
    intro x hx
    rw [hdrop] at hx
    rcases List.mem_cons.mp hx with rfl | hx'
    · rw [keyLT_irrefl]
      simp
    · have hjx : keyLT (msgKey hist[j]) (msgKey x) = true := by
        rw [hdrop] at hp2
        exact (List.pairwise_cons.mp hp2).1 x hx'
      rw [keyLT_asymm hjx]
      simp
  have hstep : hist.filter (fun m => keyLT (msgKey m) (msgKey hist[j]))
      = (hist.take j ++ hist.drop j).filter (fun m => keyLT (msgKey m) (msgKey hist[j])) := by
    rw [hsplit]
  rw [hstep, List.filter_append, List.filter_eq_self.mpr htake,
    List.filter_eq_nil_iff.mpr hdropf, List.append_nil]

/-- Following `nextCursor` from any cursor whose older-than view is a prefix
of the strictly ascending history reconstructs exactly that prefix. -/
lemma collectPages_eq (hist : List BMessage)
    (hs : List.Pairwise (fun a b => keyLT (msgKey a) (msgKey b) = true) hist)
    (limit : Nat) (hl : limit ≠ 0) :
    ∀ (fuel n : Nat) (cur : Option Cursor), n ≤ hist.length → n < fuel →
      olderThan hist cur = hist.take n →
      collectPages hist limit fuel cur = hist.take n := by
  intro fuel
  induction fuel with
  | zero =>
    intro n cur _ h2 _
    omega
  | succ fuel ih =>
    intro n cur hn hfuel holder
    have hlim1 : 1 ≤ min limit maxPageLimit := by
      unfold maxPageLimit
      omega
    have htlen : (hist.take n).length = n := by
      rw [List.length_take]
      omega
    have hitems : ((hist.take n).reverse.take (min limit maxPageLimit)).reverse
        = (hist.take n).drop (n - min limit maxPageLimit) := by
      rw [takeLast_eq, htlen]
    have hpage : page hist limit cur
        = .ok ((hist.take n).drop (n - min limit maxPageLimit),
            if ((hist.take n).drop (n - min limit maxPageLimit)).length < min limit maxPageLimit
            then none
            else ((hist.take n).drop (n - min limit maxPageLimit)).head?.map msgKey) := by
      simp only [page, if_neg hl]
      rw [holder, hitems]
    by_cases hcase : n < min limit maxPageLimit
    · have h0 : n - min limit maxPageLimit = 0 := by omega
      have hpage2 : page hist limit cur = .ok (hist.take n, none) := by
        rw [hpage, h0, List.drop_zero, htlen, if_pos hcase]
      simp only [collectPages, hpage2]
    · have hlenitems : ((hist.take n).drop (n - min limit maxPageLimit)).length
          = min limit maxPageLimit := by
        rw [List.length_drop, htlen]
        omega
      have hidx : n - min limit maxPageLimit < hist.length := by omega
      have hhead : ((hist.take n).drop (n - min limit maxPageLimit)).head?
          = some hist[n - min limit maxPageLimit] := by
        rw [List.head?_drop, List.getElem?_take, if_pos (by omega)]
        exact List.getElem?_eq_getElem hidx
      have hpage2 : page hist limit cur
          = .ok ((hist.take n).drop (n - min limit maxPageLimit),
              some (msgKey hist[n - min limit maxPageLimit])) := by
        rw [hpage, if_neg (by omega), hhead]
        rfl
      have hrec : collectPages hist limit (fuel + 1) cur
          = collectPages hist limit fuel (some (msgKey hist[n - min limit maxPageLimit]))
            ++ (hist.take n).drop (n - min limit maxPageLimit) := by
        simp only [collectPages, hpage2]
      rw [hrec]
      have hfilter : olderThan hist (some (msgKey hist[n - min limit maxPageLimit]))
          = hist.take (n - min limit maxPageLimit) :=
        filter_keyLT_take hist hs _ hidx
      rw [ih (n - min limit maxPageLimit) _ (by omega) (by omega) hfilter]
      have htakepre : hist.take (n - min limit maxPageLimit)
          = (hist.take n).take (n - min limit maxPageLimit) := by
        rw [List.take_take]
        congr 1
        omega
      rw [htakepre, List.take_append_drop]

/-- C7 (amended): for every strictly ascending conversation history and
every positive page limit, repeatedly calling `page` from no cursor and
following `nextCursor` until it is `none`, prepending each page,
reconstructs the full history with no gaps, duplicates or reordering; and a
page holding fewer than the effective (clamped) limit `min limit
maxPageLimit` items carries `nextCursor = none`. -/
theorem cursorPaginationComplete (hist : List BMessage) (limit : Nat)
    (hs : List.Pairwise (fun a b => keyLT (msgKey a) (msgKey b) = true) hist)
    (hl : 0 < limit) :
    pageAll hist limit = hist ∧
    (∀ cursor items next, page hist limit cursor = .ok (items, next) →
      items.length < min limit maxPageLimit → next = none) := by
  constructor
  · have h := collectPages_eq hist hs limit (by omega) (hist.length + 1)
      hist.length none (le_refl _) (by omega) (by simp [olderThan])
    rw [pageAll, h, List.take_length]
  · intro cursor items next hpage hsmall
    simp only [page, if_neg (by omega : ¬ limit = 0)] at hpage
    have hitems : items = ((olderThan hist cursor).reverse.take (min limit maxPageLimit)).reverse := by
      exact (congrArg (fun p => p.1)
        (Except.ok.inj hpage)).symm
    have hnext := congrArg (fun p => p.2) (Except.ok.inj hpage)
    dsimp only at hnext
    rw [← hnext, ← hitems] at *
    rw [← hnext]
    rw [if_pos hsmall]

/-- Witness for C7 at a five-message history paged two at a time. -/
theorem cursorPaginationComplete_witness :
    pageAll [⟨0, 7, 0, "a", 0⟩, ⟨1, 7, 0, "b", 1⟩, ⟨2, 7, 0, "c", 2⟩,
        ⟨3, 7, 0, "d", 3⟩, ⟨4, 7, 0, "e", 4⟩] 2
      = [⟨0, 7, 0, "a", 0⟩, ⟨1, 7, 0, "b", 1⟩, ⟨2, 7, 0, "c", 2⟩,
        ⟨3, 7, 0, "d", 3⟩, ⟨4, 7, 0, "e", 4⟩] :=
  (cursorPaginationComplete [⟨0, 7, 0, "a", 0⟩, ⟨1, 7, 0, "b", 1⟩, ⟨2, 7, 0, "c", 2⟩,
      ⟨3, 7, 0, "d", 3⟩, ⟨4, 7, 0, "e", 4⟩] 2 (by decide) (by decide)).1

/-- C7 counterexample to the claim as stated: with the limit 101 (above the
clamp) on a 101-message history, the first page returns 100 items — fewer
than the requested limit — yet `nextCursor` is not `none`. -/
theorem cursorPaginationLiteralLimitCex :
    (page ((List.range 101).map fun i => ⟨i, 7, 0, "m", i⟩) 101 none).toOption.map
        (fun pr => (pr.1.length, pr.2.isSome)) = some (100, true) ∧ 100 < 101 := by
  constructor
  · decide
  · omega

end Dingg
